import Mathlib

/-!
Verification development for the music-bot repository.

Shallow embedding of the resilient fetch/failover layer and its
concurrency coordinator:

* the direct (retrying, atomic) download `_download_flac` and the
  segmented download `_download_dash` from `src/tidal/downloader.py`
  (identical copies live in `src/monochrome.py`);
* the instance failover `_api_get` from `src/tidal/client.py` and the
  older variant from `src/monochrome.py` (which has no dead set);
* the premium-quality resolver `_fetch_hires` / `fetch_track_url` from
  `src/tidal/metadata.py`;
* the filename prefix logic from `src/tidal/files.py` and the inline
  f-string of `src/monochrome.py`;
* the bulk album loop `download_album`;
* a small-step interleaving machine for the upload single-flight
  `_ensure_cached` from `src/bot.py`, following the cooperative
  event-loop concurrency model: code between awaits runs atomically.

Network responses, filesystem contents and upload outcomes are
parameters of each model; byte strings are `List Nat`.
-/

/-- A two-slot view of the filesystem around one destination path:
the content (if any) at `filepath + ".tmp"` and at `filepath`. -/
structure FS where
  tmp : Option (List Nat)
  final : Option (List Nat)
  deriving DecidableEq, Repr

/-- Outcome of one attempt of the direct download: either the full
byte stream arrives, or the attempt raises after writing `wrote`
to the temporary file (`none` when it raised before opening it).
`transient` is membership in the caught tuple
`(aiohttp.ClientError, ConnectionError, OSError)`. -/
inductive Attempt where
  | success (content : List Nat)
  | fail (wrote : Option (List Nat)) (transient : Bool)
  deriving DecidableEq, Repr

/-- `true` exactly for a failure the retry loop catches. -/
def Attempt.isTransientFail : Attempt → Bool
  | .fail _ true => true
  | _ => false

/-- Result observed by the caller of the direct download:
the returned byte count, or the raised error together with how many
attempts were made and whether the last error was transient. -/
inductive DlResult where
  | ok (bytes : Nat)
  | err (attemptsMade : Nat) (transient : Bool)
  deriving DecidableEq, Repr

/-- The retry loop of `_download_flac`, one recursive call per loop
iteration (`fuel` bounds the recursion; callers pass enough).
On success: the temp file is renamed onto the destination.
On a transient failure: the temp file is removed and, below the bound,
the loop sleeps `2 ^ attempt` seconds and retries.
On a non-transient failure: the exception propagates at once, leaving
whatever this attempt wrote at the temporary path. -/
def downloadFlacGo (outcome : Nat → Attempt) (fuel : Nat) (attempt maxRetries : Nat)
    (fs : FS) (sleeps : List Nat) : DlResult × FS × List Nat :=
  match fuel with
  | 0 => (.err attempt true, fs, sleeps)
  | fuel + 1 =>
    match outcome attempt with
    | .success content => (.ok content.length, { tmp := none, final := some content }, sleeps)
    | .fail wrote transient =>
      if transient then
        if attempt < maxRetries then
          downloadFlacGo outcome fuel (attempt + 1) maxRetries { fs with tmp := none }
            (sleeps ++ [2 ^ attempt])
        else (.err attempt true, { fs with tmp := none }, sleeps)
      else
        (.err attempt false,
          { fs with tmp := match wrote with | some c => some c | none => fs.tmp }, sleeps)

/-- `_download_flac(url, filepath, max_retries)`: attempts are numbered
from 1 as in `range(1, max_retries + 1)`; also returns the final
filesystem state and the list of backoff sleeps performed. -/
def downloadFlac (outcome : Nat → Attempt) (maxRetries : Nat) (fs : FS) :
    DlResult × FS × List Nat :=
  downloadFlacGo outcome maxRetries 1 maxRetries fs []

/-- Result of the segmented download: total bytes written, or the
surfaced failure. -/
inductive DashResult where
  | ok (bytes : Nat)
  | err
  deriving DecidableEq, Repr

/-- The loop of `_download_dash` over `[init_url] + segment_urls`:
each URL is fetched in order (`resp u = none` models a failed request)
and appended to the one temporary file (`acc`); the third component
records the URLs fetched, in order. Any failure removes the temporary
file and re-raises; full success renames the concatenation onto the
destination. -/
def downloadDashGo (resp : String → Option (List Nat)) :
    List String → List Nat → Nat → FS → List String → DashResult × FS × List String
  | [], acc, total, _fs, fetched => (.ok total, { tmp := none, final := some acc }, fetched)
  | url :: rest, acc, total, fs, fetched =>
    match resp url with
    | some chunk =>
        downloadDashGo resp rest (acc ++ chunk) (total + chunk.length) fs (fetched ++ [url])
    | none => (.err, { fs with tmp := none }, fetched ++ [url])

/-- `_download_dash(init_url, segment_urls, filepath)`. -/
def downloadDash (resp : String → Option (List Nat)) (initUrl : String)
    (segmentUrls : List String) (fs : FS) : DashResult × FS × List String :=
  downloadDashGo resp (initUrl :: segmentUrls) [] 0 fs []

/-- Concatenation, in order, of the chunks the responses deliver. -/
def dashConcat (resp : String → Option (List Nat)) (urls : List String) : List Nat :=
  urls.foldl (fun acc u => acc ++ (resp u).getD []) []

/-- Python `f"{num:02d}"` for a natural number. -/
def pad2 (n : Nat) : String := if n < 10 then "0" ++ toString n else toString n

/-- `files.py` `def` for the filename prefix: plain zero-padded track
number for a single-disc album, `disc-number` prefixed otherwise. -/
def trackPrefix (disc num totalDiscs : Nat) : String :=
  if totalDiscs > 1 then toString disc ++ "-" ++ pad2 num else pad2 num

/-- The inline filename prefix of `monochrome.py` (lines 794 and 923):
always the f-string with the disc number, with no single-disc case. -/
def monochromeTrackPrefix (disc num : Nat) : String :=
  toString disc ++ "-" ++ pad2 num

/-- Add a key to a Python-set/dict-key list: no duplicate insertion. -/
def insertKey (ks : List String) (k : String) : List String :=
  if k ∈ ks then ks else ks ++ [k]

/-- Parsed JSON body of an API response as `_api_get` inspects it. -/
inductive Body where
  | withDetail (msg : String)
  | withData (payload : String)
  | bare (payload : String)
  deriving DecidableEq, Repr

/-- What one endpoint does for this request: raise (connection or
timeout error, anything the `except` catches) or answer with an HTTP
status and a body. -/
inductive ApiResp where
  | exn (msg : String)
  | http (status : Nat) (body : Body)
  deriving DecidableEq, Repr

/-- Observable outcome of one `_api_get` call: the unwrapped payload if
any, the dead set afterwards, the recorded last error, and the
endpoints attempted in order. -/
structure ApiOutcome where
  result : Option String
  dead : List String
  lastErr : Option String
  attempted : List String
  deriving DecidableEq, Repr

/-- The per-endpoint loop of `tidal/client.py` `_api_get`:
a raised error records the failure AND adds the endpoint to the dead
set, then continues; a non-200 status or a body with a `detail` field
records the failure and continues without touching the dead set; a
`data` envelope is unwrapped, a bare body returned as is. -/
def apiLoopGo (resp : String → ApiResp) :
    List String → List String → Option String → List String → ApiOutcome
  | [], dead, lastErr, attempted =>
      { result := none, dead := dead, lastErr := lastErr, attempted := attempted }
  | inst :: rest, dead, lastErr, attempted =>
    match resp inst with
    | .exn m =>
        apiLoopGo resp rest (insertKey dead inst) (some (inst ++ ": " ++ m))
          (attempted ++ [inst])
    | .http status body =>
      if status ≠ 200 then
        apiLoopGo resp rest dead (some ("HTTP " ++ toString status ++ " from " ++ inst))
          (attempted ++ [inst])
      else
        match body with
        | .withDetail m =>
            apiLoopGo resp rest dead (some (inst ++ ": " ++ m)) (attempted ++ [inst])
        | .withData p =>
            { result := some p, dead := dead, lastErr := lastErr,
              attempted := attempted ++ [inst] }
        | .bare p =>
            { result := some p, dead := dead, lastErr := lastErr,
              attempted := attempted ++ [inst] }

/-- Lines 98 to 103 of `tidal/client.py`: skip dead instances, and when
every instance is dead, clear the dead set and try everyone. Returns
the list to iterate and the dead set to carry on with. -/
def liveSelect (instances dead : List String) : List String × List String :=
  if (instances.filter (fun i => !(dead.contains i))).isEmpty then (instances, [])
  else (instances.filter (fun i => !(dead.contains i)), dead)

/-- `tidal/client.py` `_api_get` for a fixed instance list and dead set. -/
def apiGet (resp : String → ApiResp) (instances dead : List String) : ApiOutcome :=
  apiLoopGo resp (liveSelect instances dead).1 (liveSelect instances dead).2 none []

/-- `monochrome.py` `_api_get`: the same failover loop, but the module
has no dead set at all — every failure just records and continues, the
session dead-set state (threaded here for comparison) is never read and
never written, and nothing is skipped. -/
def monochromeApiGo (resp : String → ApiResp) (dead : List String) :
    List String → Option String → List String → ApiOutcome
  | [], lastErr, attempted =>
      { result := none, dead := dead, lastErr := lastErr, attempted := attempted }
  | inst :: rest, lastErr, attempted =>
    match resp inst with
    | .exn m =>
        monochromeApiGo resp dead rest (some (inst ++ ": " ++ m)) (attempted ++ [inst])
    | .http status body =>
      if status ≠ 200 then
        monochromeApiGo resp dead rest
          (some ("HTTP " ++ toString status ++ " from " ++ inst)) (attempted ++ [inst])
      else
        match body with
        | .withDetail m =>
            monochromeApiGo resp dead rest (some (inst ++ ": " ++ m)) (attempted ++ [inst])
        | .withData p =>
            { result := some p, dead := dead, lastErr := lastErr,
              attempted := attempted ++ [inst] }
        | .bare p =>
            { result := some p, dead := dead, lastErr := lastErr,
              attempted := attempted ++ [inst] }

/-- `monochrome.py` `_api_get` over the full instance list. -/
def monochromeApiGet (resp : String → ApiResp) (instances dead : List String) : ApiOutcome :=
  monochromeApiGo resp dead instances none []

/-- Result of `_parse_mpd`: initialization URL, media segment URLs and
the codec of the chosen representation. -/
structure MpdInfo where
  init_url : String
  segment_urls : List String
  codec : String
  deriving DecidableEq, Repr

/-- Replay-gain block copied from the track response. -/
structure StreamMeta where
  trackReplayGain : Option String
  trackPeak : Option String
  albumReplayGain : Option String
  albumPeak : Option String
  deriving DecidableEq, Repr

/-- One mirror's HI_RES_LOSSLESS response as `_fetch_hires` inspects
it (after envelope unwrapping): status, presence of a `detail` field,
the base64 manifest text (empty string when missing), its mime type,
the asset presentation, and the replay-gain fields. -/
structure HiresResp where
  status : Nat
  hasDetail : Bool
  manifest : String
  manifestMimeType : String
  assetPresentation : String
  trackReplayGain : Option String
  trackPeakAmplitude : Option String
  albumReplayGain : Option String
  albumPeakAmplitude : Option String
  deriving DecidableEq, Repr

/-- Download descriptor handed to the download engine. -/
structure DlInfo where
  type : String
  ext : String
  url : Option String
  init_url : Option String
  segment_urls : List String
  codec : String
  deriving DecidableEq, Repr

/-- Does the second list start with the first? -/
def leadsWith : List Char → List Char → Bool
  | [], _ => true
  | _ :: _, [] => false
  | n :: ns, h :: hs => n == h && leadsWith ns hs

/-- Does `needle` occur contiguously in the haystack? -/
def hasSubList (needle : List Char) : List Char → Bool
  | [] => needle.isEmpty
  | h :: hs => leadsWith needle (h :: hs) || hasSubList needle hs

/-- Python `needle in hay` on strings. -/
def containsSub (hay needle : String) : Bool := hasSubList needle.data hay.data

/-- The body of the `for inst in instances` loop of `_fetch_hires`,
checks in source order: request raised (`none`) → skip; non-200 → skip;
`detail` present → skip; empty manifest → skip; mime type naming
neither dash nor xml → skip; presentation other than FULL → skip;
manifest that does not parse (`parse` is the `_parse_mpd` composed
with base64 decoding, a parameter here) → skip; codec other than
flac → skip; otherwise build the dash descriptor. -/
def hiresTryInstance (parse : String → Option MpdInfo) (r : Option HiresResp) :
    Option (DlInfo × StreamMeta) :=
  match r with
  | none => none
  | some resp =>
    if resp.status ≠ 200 then none
    else if resp.hasDetail then none
    else if resp.manifest = "" then none
    else if !(containsSub resp.manifestMimeType "dash")
            && !(containsSub resp.manifestMimeType "xml") then none
    else if resp.assetPresentation ≠ "FULL" then none
    else
      match parse resp.manifest with
      | none => none
      | some info =>
        if info.codec ≠ "flac" then none
        else
          some ({ type := "dash", ext := "m4a", url := none,
                  init_url := some info.init_url, segment_urls := info.segment_urls,
                  codec := info.codec },
                { trackReplayGain := resp.trackReplayGain,
                  trackPeak := resp.trackPeakAmplitude,
                  albumReplayGain := resp.albumReplayGain,
                  albumPeak := resp.albumPeakAmplitude })

/-- `_fetch_hires`: probe every instance in pool order, first accepted
mirror wins, `none` when no mirror qualifies. -/
def fetchHires (parse : String → Option MpdInfo) (instances : List String)
    (resp : String → Option HiresResp) : Option (DlInfo × StreamMeta) :=
  match instances with
  | [] => none
  | inst :: rest =>
    match hiresTryInstance parse (resp inst) with
    | some r => some r
    | none => fetchHires parse rest resp

/-- Mirror acceptance written from the words of the specification:
the response reports full (non-preview) access, carries a parseable
DASH manifest, and the codec is exactly flac (and the response itself
arrived: status 200 and no server-reported error). -/
def specQualifies (parse : String → Option MpdInfo) (r : Option HiresResp) : Bool :=
  match r with
  | none => false
  | some resp =>
    resp.status = 200 && !resp.hasDetail && decide (resp.manifest ≠ "")
      && (containsSub resp.manifestMimeType "dash" || containsSub resp.manifestMimeType "xml")
      && decide (resp.assetPresentation = "FULL")
      && (match parse resp.manifest with
          | none => false
          | some info => decide (info.codec = "flac"))

/-- What `fetch_track_url` returns, for the quality-dispatch part: a
premium dash descriptor, or a fall-through to the standard LOSSLESS
single-URL tier (whose own body is settled by the other models). -/
inductive FetchOut where
  | hires (d : DlInfo) (m : StreamMeta)
  | losslessTier
  deriving DecidableEq, Repr

/-- The quality dispatch of `fetch_track_url`: for HI_RES_LOSSLESS try
every instance via `_fetch_hires` and return its descriptor when one
qualifies; otherwise (and for any other quality) consult the standard
LOSSLESS tier. -/
def fetchTrackUrl (parse : String → Option MpdInfo) (quality : String)
    (instances : List String) (resp : String → Option HiresResp) : FetchOut :=
  if quality = "HI_RES_LOSSLESS" then
    match fetchHires parse instances resp with
    | some (d, m) => .hires d m
    | none => .losslessTier
  else .losslessTier

/-- A track as `download_album` consumes it. -/
structure Track where
  id : String
  title : String
  deriving DecidableEq, Repr

/-- Outcome of the per-track body of phase 3 of `download_album`
(fetch URL, download, tag): completed, or raised with a message. -/
inductive TrackOutcome where
  | ok
  | err (msg : String)
  deriving DecidableEq, Repr

/-- The structured outcome dict of `download_album`, plus a ghost field
recording which tracks the phase-3 loop attempted, in order. -/
structure AlbumOutcome where
  downloaded : Nat
  skipped : Nat
  failed : List (String × String)
  total : Nat
  attempted : List Track
  deriving DecidableEq, Repr

/-- `download_album`: phase 1 splits tracks into existing (entered into
a dict keyed by track id — duplicate ids collapse) and to-download;
phase 2 counts `skipped = len(existing_map)`; phase 3 tries each
missing track, counting completions and recording each failure as one
`(title, message)` entry while continuing with the remaining tracks. -/
def downloadAlbum (tracks : List Track) (existsOnDisk : Track → Bool)
    (attempt : Track → TrackOutcome) : AlbumOutcome :=
  let existingKeys := ((tracks.filter existsOnDisk).map Track.id).foldl insertKey []
  let toDownload := tracks.filter (fun t => !existsOnDisk t)
  let r := toDownload.foldl
    (fun (acc : Nat × List (String × String) × List Track) t =>
      match attempt t with
      | .ok => (acc.1 + 1, acc.2.1, acc.2.2 ++ [t])
      | .err m => (acc.1, acc.2.1 ++ [(t.title, m)], acc.2.2 ++ [t]))
    (0, [], [])
  { downloaded := r.1, skipped := existingKeys.length, failed := r.2.1,
    total := tracks.length, attempted := r.2.2 }

/-- Did the per-track body complete? -/
def TrackOutcome.isOk : TrackOutcome → Bool
  | .ok => true
  | .err _ => false

/-- The `failed` entry a track contributes, if its body raised. -/
def failEntry (attempt : Track → TrackOutcome) (t : Track) : Option (String × String) :=
  match attempt t with
  | .ok => none
  | .err m => some (t.title, m)

/-- Control point of one `_ensure_cached` caller, one constructor per
region between awaits. `g` is the generation of the upload flight the
caller joined (the index of its `asyncio.Event`). -/
inductive PC where
  | start
  | waiting (g : Nat)
  | computing (g : Nat)
  | fetched (g : Nat) (res : Option String)
  | finishing (g : Nat) (fid : String)
  | done (res : Option String)
  | timedOut
  deriving DecidableEq, Repr

/-- Shared module state of `bot.py` plus the callers' control points:
`cache` is `_file_id_cache[song_id]`, `pending` the generation of the
event in `_upload_events[song_id]` (if present), `nextGen` counts
events ever created, `settles` counts flights settled (flights settle
in creation order, so an event of generation g is set exactly when
`g < settles`), `fetches` counts physical fetch/uploads started. -/
structure SFState where
  cache : Option String
  pending : Option Nat
  nextGen : Nat
  settles : Nat
  fetches : Nat
  pcs : List PC
  deriving DecidableEq, Repr

/-- One scheduler action: which caller runs its next atomic region;
`tmo` selects the timeout branch for a caller blocked in
`asyncio.wait_for`. Disabled actions leave the state unchanged. -/
structure Act where
  i : Nat
  tmo : Bool
  deriving DecidableEq, Repr

/-- Replace caller i's control point. -/
def setPc (s : SFState) (i : Nat) (p : PC) : SFState := { s with pcs := s.pcs.set i p }

/-- One atomic region of `_ensure_cached`, for caller `a.i`; `out i`
is the outcome the physical fetch/upload would have for caller i
(`some fid` success, `none` for a raised error or a non-audio reply).
Entry region: cached value returned at once; else join a pending
flight as a waiter; else publish the event and become the computer.
Computer: fetch (counted), then on success write the file id into the
cache (before the message-delete await), then the `finally` region
sets the event and pops the entry; on failure the `finally` region
does the same without a cache write. Waiter: wake once the event is
set and read the cache, or time out. -/
def execAct (out : Nat → Option String) (s : SFState) (a : Act) : SFState :=
  match s.pcs.get? a.i with
  | none => s
  | some pc =>
    match pc with
    | .start =>
      match s.cache with
      | some v => setPc s a.i (.done (some v))
      | none =>
        match s.pending with
        | some g => setPc s a.i (.waiting g)
        | none =>
          { setPc s a.i (.computing s.nextGen) with
              pending := some s.nextGen, nextGen := s.nextGen + 1 }
    | .waiting g =>
      if a.tmo then setPc s a.i .timedOut
      else if g < s.settles then setPc s a.i (.done s.cache)
      else s
    | .computing g =>
      { setPc s a.i (.fetched g (out a.i)) with fetches := s.fetches + 1 }
    | .fetched g res =>
      match res with
      | some fid => { setPc s a.i (.finishing g fid) with cache := some fid }
      | none => { setPc s a.i (.done none) with pending := none, settles := s.settles + 1 }
    | .finishing g fid =>
      { setPc s a.i (.done (some fid)) with pending := none, settles := s.settles + 1 }
    | .done _ => s
    | .timedOut => s

/-- N callers about to call `_ensure_cached` for one song id that has
no cached file id and no pending upload. -/
def initState (n : Nat) : SFState :=
  { cache := none, pending := none, nextGen := 0, settles := 0, fetches := 0,
    pcs := List.replicate n .start }

/-- Run a schedule. -/
def runTrace (out : Nat → Option String) (s : SFState) (tr : List Act) : SFState :=
  tr.foldl (execAct out) s

/-- A step is an entry step when the acting caller is at `start`. The
schedule condition for C1: callers are concurrent, every one of them
enters before the (first) flight has settled. -/
def entryOk (s : SFState) (a : Act) : Bool :=
  match s.pcs.get? a.i with
  | some .start => s.settles = 0
  | _ => true

/-- Every entry in the schedule happens while no flight has settled. -/
def stepsOk (out : Nat → Option String) (s : SFState) : List Act → Bool
  | [] => true
  | a :: tr => entryOk s a && stepsOk out (execAct out s a) tr

/-- A caller is finished when it returned (or timed out). -/
def isFinished : PC → Bool
  | .done _ => true
  | .timedOut => true
  | _ => false

/-- All callers finished. -/
def allFinished (s : SFState) : Bool := s.pcs.all isFinished

/-- Control points a non-owner caller can hold while the upload flight
is in progress and the cache is still empty. -/
def Bystander1 (p : PC) : Prop :=
  p = PC.start ∨ p = PC.waiting 0 ∨ p = PC.timedOut

/-- Control points a non-owner caller can hold once the flight has
written file id `v` into the cache (an entry step may now return the
cached value directly). -/
def Bystander2 (v : String) (p : PC) : Prop :=
  p = PC.start ∨ p = PC.waiting 0 ∨ p = PC.timedOut ∨ p = PC.done (some v)

/-- Phase: no upload flight was ever created. -/
def PhaseNone (s : SFState) : Prop :=
  s.cache = none ∧ s.pending = none ∧ s.nextGen = 0 ∧ s.settles = 0 ∧ s.fetches = 0 ∧
  ∀ j p, s.pcs.get? j = some p → p = PC.start

/-- Phase: flight 0 is in progress, owned by exactly one caller `c`;
exactly one fetch has started once the owner is past its gather. -/
def PhaseRun (s : SFState) : Prop :=
  s.pending = some 0 ∧ s.nextGen = 1 ∧ s.settles = 0 ∧
  ∃ c, c < s.pcs.length ∧
    ((s.pcs.get? c = some (PC.computing 0) ∧ s.fetches = 0 ∧ s.cache = none ∧
        ∀ j p, j ≠ c → s.pcs.get? j = some p → Bystander1 p) ∨
     (∃ r, s.pcs.get? c = some (PC.fetched 0 r) ∧ s.fetches = 1 ∧ s.cache = none ∧
        ∀ j p, j ≠ c → s.pcs.get? j = some p → Bystander1 p) ∨
     (∃ v, s.pcs.get? c = some (PC.finishing 0 v) ∧ s.fetches = 1 ∧ s.cache = some v ∧
        ∀ j p, j ≠ c → s.pcs.get? j = some p → Bystander2 v p))

/-- Phase: flight 0 settled; exactly one fetch ever ran, and every
caller that returned observed exactly the cache contents. -/
def PhaseDone (s : SFState) : Prop :=
  s.pending = none ∧ s.nextGen = 1 ∧ s.settles = 1 ∧ s.fetches = 1 ∧
  ∀ j p, s.pcs.get? j = some p →
    p = PC.start ∨ p = PC.waiting 0 ∨ p = PC.timedOut ∨ p = PC.done s.cache

/-- The inductive invariant for schedules whose entries all happen
before the flight settles. -/
def SFInv (s : SFState) : Prop := PhaseNone s ∨ PhaseRun s ∨ PhaseDone s

/-! ## Helper lemmas -/

theorem isTransientFail_iff (a : Attempt) :
    a.isTransientFail = true ↔ ∃ w, a = .fail w true := by
  cases a with
  | success c => simp [Attempt.isTransientFail]
  | fail w t => cases t <;> simp [Attempt.isTransientFail]

theorem mem_insertKey (ks : List String) (k x : String) :
    x ∈ insertKey ks k ↔ x ∈ ks ∨ x = k := by
  by_cases h : k ∈ ks
  · simp only [insertKey, if_pos h]
    constructor
    · exact Or.inl
    · rintro (hx | rfl)
      · exact hx
      · exact h
  · simp [insertKey, if_neg h]

theorem length_filter_split {α : Type} (p : α → Bool) (l : List α) :
    (l.filter p).length + (l.filter (fun t => !p t)).length = l.length := by
  induction l with
  | nil => rfl
  | cons a tl ih =>
    cases h : p a <;> simp [List.filter, h] <;> omega

/-! ## C8: filename prefix -/

/-- C8 counterexample: in the monochrome download path the prefix of a
single-disc album track (disc 1, track 3) is the literal f-string
`1-03` and not the zero-padded `03` the claim requires. -/
theorem monochromePrefix_counterexample :
    monochromeTrackPrefix 1 3 = "1-03" ∧ monochromeTrackPrefix 1 3 ≠ pad2 3 := by
  decide

/-- C8 (amended): the tidal downloader path builds the prefix with the
files.py rule — plain `NN` when the album has one disc, `D-NN` when it
has several — while the monochrome path always uses `D-NN`, disc count
notwithstanding. -/
theorem trackPrefix_amended (disc num totalDiscs : Nat) :
    (totalDiscs = 1 → trackPrefix disc num totalDiscs = pad2 num) ∧
    (totalDiscs > 1 →
      trackPrefix disc num totalDiscs = toString disc ++ "-" ++ pad2 num) ∧
    monochromeTrackPrefix disc num = toString disc ++ "-" ++ pad2 num := by
  refine ⟨?_, ?_, rfl⟩
  · intro h
    subst h
    simp [trackPrefix]
  · intro h
    simp [trackPrefix, h]

theorem trackPrefix_amended_witness :
    (1 = 1 → trackPrefix 1 3 1 = pad2 3) ∧
    (1 > 1 → trackPrefix 1 3 1 = toString 1 ++ "-" ++ pad2 3) ∧
    monochromeTrackPrefix 1 3 = toString 1 ++ "-" ++ pad2 3 :=
  trackPrefix_amended 1 3 1

/-! ## C5: dead-set recovery -/

/-- C5: when every endpoint of the pool is in the dead set, the request
clears the dead set and iterates the full pool; for a non-empty pool
the selected live list is never empty. -/
theorem apiGet_all_dead_recovery (instances dead : List String)
    (hne : instances ≠ []) (hall : ∀ i ∈ instances, i ∈ dead) :
    liveSelect instances dead = (instances, []) ∧
    ∀ d2 : List String, (liveSelect instances d2).1 ≠ [] := by
  constructor
  · have hfil : instances.filter (fun i => !(dead.contains i)) = [] := by
      apply List.filter_eq_nil_iff.mpr
      intro a ha
      simp [hall a ha]
    simp only [liveSelect, hfil, List.isEmpty_nil, if_pos]
  · intro d2
    by_cases h : (instances.filter (fun i => !(d2.contains i))).isEmpty = true
    · simp only [liveSelect, if_pos h]
      exact hne
    · simp only [liveSelect, if_neg h]
      intro hcon
      rw [hcon] at h
      exact h rfl

theorem apiGet_all_dead_recovery_witness :
    (["a", "b"] : List String) ≠ [] ∧
    (liveSelect ["a", "b"] ["a", "b"] = (["a", "b"], []) ∧
      ∀ d2 : List String, (liveSelect ["a", "b"] d2).1 ≠ []) :=
  ⟨by decide, apiGet_all_dead_recovery ["a", "b"] ["a", "b"] (by decide) (by decide)⟩

/-! ## C6: dead marking in the failover loop -/

theorem apiLoopGo_dead_mono (resp : String → ApiResp) :
    ∀ (l dead : List String) (lastErr : Option String) (attempted : List String) (x : String),
      x ∈ dead → x ∈ (apiLoopGo resp l dead lastErr attempted).dead := by
  intro l
  induction l with
  | nil => intro dead le att x hx; simpa [apiLoopGo] using hx
  | cons inst rest ih =>
    intro dead le att x hx
    cases e : resp inst with
    | exn m =>
      simp only [apiLoopGo, e]
      exact ih _ _ _ x ((mem_insertKey dead inst x).mpr (Or.inl hx))
    | http status body =>
      simp only [apiLoopGo, e]
      by_cases hs : status ≠ 200
      · rw [if_pos hs]
        exact ih _ _ _ x hx
      · rw [if_neg hs]
        cases body with
        | withDetail m => exact ih _ _ _ x hx
        | withData p => exact hx
        | bare p => exact hx

theorem apiLoopGo_exn_marks (resp : String → ApiResp) (e m : String)
    (he : resp e = .exn m) :
    ∀ (l dead : List String) (lastErr : Option String) (attempted : List String),
      e ∈ (apiLoopGo resp l dead lastErr attempted).attempted →
      e ∈ attempted ∨ e ∈ (apiLoopGo resp l dead lastErr attempted).dead := by
  intro l
  induction l with
  | nil => intro dead le att h; left; simpa [apiLoopGo] using h
  | cons inst rest ih =>
    intro dead le att h
    cases einst : resp inst with
    | exn m2 =>
      simp only [apiLoopGo, einst] at h ⊢
      rcases ih _ _ _ h with hin | hdead
      · rcases List.mem_append.mp hin with h1 | h2
        · exact Or.inl h1
        · have : e = inst := by simpa using h2
          subst this
          exact Or.inr (apiLoopGo_dead_mono resp rest _ _ _ e
            ((mem_insertKey dead e e).mpr (Or.inr rfl)))
      · exact Or.inr hdead
    | http status body =>
      have hne : e ≠ inst := by
        intro hcon
        rw [hcon, einst] at he
        cases he
      simp only [apiLoopGo, einst] at h ⊢
      by_cases hs : status ≠ 200
      · rw [if_pos hs] at h ⊢
        rcases ih _ _ _ h with hin | hdead
        · rcases List.mem_append.mp hin with h1 | h2
          · exact Or.inl h1
          · exact absurd (by simpa using h2) hne
        · exact Or.inr hdead
      · rw [if_neg hs] at h ⊢
        cases body with
        | withDetail m2 =>
          rcases ih _ _ _ h with hin | hdead
          · rcases List.mem_append.mp hin with h1 | h2
            · exact Or.inl h1
            · exact absurd (by simpa using h2) hne
          · exact Or.inr hdead
        | withData p =>
          have hsplit : e ∈ att ∨ e = inst := by simpa using h
          rcases hsplit with h1 | h2
          · exact Or.inl h1
          · exact absurd h2 hne
        | bare p =>
          have hsplit : e ∈ att ∨ e = inst := by simpa using h
          rcases hsplit with h1 | h2
          · exact Or.inl h1
          · exact absurd h2 hne

theorem apiLoopGo_not_marks (resp : String → ApiResp) (e : String)
    (he : ∀ m, resp e ≠ .exn m) :
    ∀ (l dead : List String) (lastErr : Option String) (attempted : List String),
      e ∉ dead → e ∉ (apiLoopGo resp l dead lastErr attempted).dead := by
  intro l
  induction l with
  | nil => intro dead le att hnd; simpa [apiLoopGo] using hnd
  | cons inst rest ih =>
    intro dead le att hnd
    cases einst : resp inst with
    | exn m =>
      have hne : e ≠ inst := fun hcon => he m (by rw [hcon, einst])
      simp only [apiLoopGo, einst]
      apply ih
      intro hmem
      rcases (mem_insertKey dead inst e).mp hmem with h1 | h2
      · exact hnd h1
      · exact hne h2
    | http status body =>
      simp only [apiLoopGo, einst]
      by_cases hs : status ≠ 200
      · rw [if_pos hs]
        exact ih _ _ _ hnd
      · rw [if_neg hs]
        cases body with
        | withDetail m => exact ih _ _ _ hnd
        | withData p => exact hnd
        | bare p => exact hnd

theorem monochromeApiGo_dead (resp : String → ApiResp) (dead : List String) :
    ∀ (l : List String) (lastErr : Option String) (attempted : List String),
      (monochromeApiGo resp dead l lastErr attempted).dead = dead := by
  intro l
  induction l with
  | nil => intro le att; rfl
  | cons inst rest ih =>
    intro le att
    cases einst : resp inst with
    | exn m =>
      simp only [monochromeApiGo, einst]
      exact ih _ _
    | http status body =>
      simp only [monochromeApiGo, einst]
      by_cases hs : status ≠ 200
      · rw [if_pos hs]
        exact ih _ _
      · rw [if_neg hs]
        cases body with
        | withDetail m => exact ih _ _
        | withData p => rfl
        | bare p => rfl

/-- C6 counterexample: in the monochrome failover client, endpoint
`a` is attempted and raises a connection error, yet the session state
after the call holds no dead set at all (the module has none; the
threaded dead-set state is untouched), so `a` is not marked dead as
the claim requires. -/
theorem monochromeApiGet_counterexample :
    (monochromeApiGet (fun _ => .exn "connection error") ["a"] []).attempted = ["a"] ∧
    "a" ∉ (monochromeApiGet (fun _ => .exn "connection error") ["a"] []).dead := by
  decide

/-- C6 (amended): in the tidal client's failover loop a raised
(connection or timeout) error puts the attempted endpoint into the
dead set before the loop continues, while an endpoint whose response
is not a raised error (a non-200 status among them) is never added to
the dead set; the monochrome module's failover maintains no dead set —
its state is returned unchanged whatever the endpoints answer. -/
theorem apiGet_dead_marking_amended (resp : String → ApiResp)
    (instances dead : List String) (e : String) :
    ((∃ m, resp e = .exn m) →
        e ∈ (apiGet resp instances dead).attempted →
        e ∈ (apiGet resp instances dead).dead) ∧
    ((∀ m, resp e ≠ .exn m) → e ∉ dead → e ∉ (apiGet resp instances dead).dead) ∧
    (∀ insts2 dead2 : List String, (monochromeApiGet resp insts2 dead2).dead = dead2) := by
  refine ⟨?_, ?_, ?_⟩
  · rintro ⟨m, hm⟩ hatt
    rcases apiLoopGo_exn_marks resp e m hm _ _ _ _ hatt with h1 | h2
    · cases h1
    · exact h2
  · intro hne hnd
    by_cases hemp : (instances.filter (fun i => !(dead.contains i))).isEmpty = true
    · simp only [apiGet, liveSelect, if_pos hemp]
      exact apiLoopGo_not_marks resp e hne _ _ _ _ (by simp)
    · simp only [apiGet, liveSelect, if_neg hemp]
      exact apiLoopGo_not_marks resp e hne _ _ _ _ hnd
  · intro insts2 dead2
    exact monochromeApiGo_dead resp dead2 insts2 none []

theorem apiGet_dead_marking_amended_witness :
    "a" ∈ (apiGet (fun s => if s = "a" then ApiResp.exn "down" else ApiResp.http 404 (Body.bare "p"))
        ["a", "b"] []).dead :=
  (apiGet_dead_marking_amended
      (fun s => if s = "a" then ApiResp.exn "down" else ApiResp.http 404 (Body.bare "p"))
      ["a", "b"] [] "a").1 ⟨"down", by decide⟩ (by decide)

/-! ## C4 and C2: the direct download -/

theorem downloadFlacGo_succ (outcome : Nat → Attempt) (fuel attempt maxRetries : Nat)
    (fs : FS) (sleeps : List Nat) :
    downloadFlacGo outcome (fuel + 1) attempt maxRetries fs sleeps =
      match outcome attempt with
      | .success content =>
          (.ok content.length, { tmp := none, final := some content }, sleeps)
      | .fail wrote transient =>
        if transient then
          if attempt < maxRetries then
            downloadFlacGo outcome fuel (attempt + 1) maxRetries { fs with tmp := none }
              (sleeps ++ [2 ^ attempt])
          else (.err attempt true, { fs with tmp := none }, sleeps)
        else
          (.err attempt false,
            { fs with tmp := match wrote with | some c => some c | none => fs.tmp },
            sleeps) := rfl

/-- C4: with the default bound of 3, a run of three transient failures
sleeps exactly 2 then 4 seconds, performs no retry after the third
failure, and surfaces the error having made 3 attempts; a
non-transient failure on the first attempt is not retried at all and
surfaces at once. -/
theorem downloadFlac_backoff_schedule (outcome : Nat → Attempt) (fs : FS)
    (hall : ∀ k, 1 ≤ k → k ≤ 3 → (outcome k).isTransientFail = true) :
    downloadFlac outcome 3 fs = (.err 3 true, { fs with tmp := none }, [2, 4]) ∧
    ∀ (out2 : Nat → Attempt) (w : Option (List Nat)), out2 1 = .fail w false →
      downloadFlac out2 3 fs =
        (.err 1 false,
          { fs with tmp := match w with | some c => some c | none => fs.tmp }, []) := by
  constructor
  · obtain ⟨w1, e1⟩ := (isTransientFail_iff _).mp (hall 1 (by norm_num) (by norm_num))
    obtain ⟨w2, e2⟩ := (isTransientFail_iff _).mp (hall 2 (by norm_num) (by norm_num))
    obtain ⟨w3, e3⟩ := (isTransientFail_iff _).mp (hall 3 (by norm_num) (by norm_num))
    show downloadFlacGo outcome (2 + 1) 1 3 fs [] = _
    rw [downloadFlacGo_succ, e1]
    show downloadFlacGo outcome (1 + 1) 2 3 { fs with tmp := none } [2 ^ 1] = _
    rw [downloadFlacGo_succ, e2]
    show downloadFlacGo outcome (0 + 1) 3 3 { fs with tmp := none } [2 ^ 1, 2 ^ 2] = _
    rw [downloadFlacGo_succ, e3]
    rfl
  · intro out2 w h1
    show downloadFlacGo out2 (2 + 1) 1 3 fs [] = _
    rw [downloadFlacGo_succ, h1]
    rfl

theorem downloadFlac_backoff_schedule_witness :
    downloadFlac (fun _ => Attempt.fail none true) 3 { tmp := none, final := none } =
      (.err 3 true, { tmp := none, final := none }, [2, 4]) :=
  (downloadFlac_backoff_schedule (fun _ => Attempt.fail none true)
      { tmp := none, final := none } (fun _ _ _ => rfl)).1

theorem downloadFlacGo_all_transient (outcome : Nat → Attempt) :
    ∀ (fuel attempt maxRetries : Nat) (fs : FS) (sleeps : List Nat),
      (∀ k, attempt ≤ k → k ≤ maxRetries → (outcome k).isTransientFail = true) →
      attempt ≤ maxRetries → maxRetries < attempt + fuel →
      ∃ sl, downloadFlacGo outcome fuel attempt maxRetries fs sleeps =
        (.err maxRetries true, { fs with tmp := none }, sl) := by
  intro fuel
  induction fuel with
  | zero =>
    intro attempt maxR fs sleeps h hle hlt
    omega
  | succ n ih =>
    intro attempt maxR fs sleeps h hle hlt
    obtain ⟨w, hw⟩ := (isTransientFail_iff _).mp (h attempt le_rfl hle)
    by_cases hc : attempt < maxR
    · obtain ⟨sl, hsl⟩ := ih (attempt + 1) maxR { fs with tmp := none }
        (sleeps ++ [2 ^ attempt]) (fun k h1 h2 => h k (by omega) h2) (by omega) (by omega)

      refine ⟨sl, ?_⟩
      rw [downloadFlacGo_succ, hw]
      simp only [if_true, if_pos hc]
      exact hsl
    · have heq : attempt = maxR := by omega
      subst heq
      refine ⟨sleeps, ?_⟩
      rw [downloadFlacGo_succ, hw]
      simp [hc]

theorem downloadFlacGo_ok (outcome : Nat → Attempt) :
    ∀ (fuel attempt maxRetries : Nat) (fs : FS) (sleeps : List Nat) (n : Nat),
      (downloadFlacGo outcome fuel attempt maxRetries fs sleeps).1 = .ok n →
      ∃ c : List Nat, c.length = n ∧
        (downloadFlacGo outcome fuel attempt maxRetries fs sleeps).2.1 =
          { tmp := none, final := some c } := by
  intro fuel
  induction fuel with
  | zero =>
    intro attempt maxR fs sleeps n h
    exact absurd h (by simp [downloadFlacGo])
  | succ m ih =>
    intro attempt maxR fs sleeps n h
    rw [downloadFlacGo_succ] at h ⊢
    cases e : outcome attempt with
    | success c =>
      rw [e] at h
      refine ⟨c, ?_, rfl⟩
      simpa using h
    | fail w t =>
      cases t with
      | false =>
        rw [e] at h
        simp at h
      | true =>
        rw [e] at h
        by_cases hc : attempt < maxR
        · simp only [if_true, if_pos hc] at h
          simp only [if_true, if_pos hc]
          exact ih _ _ _ _ _ h
        · simp [hc] at h

/-- C2 counterexample: a direct download whose first attempt raises a
non-transient error (one outside the caught
ClientError/ConnectionError/OSError tuple, raised after writing one
chunk) fails — yet the temporary file is NOT removed: the claim's
"the temporary path has been removed" fails on the non-transient arm. -/
theorem downloadFlac_nontransient_counterexample :
    (downloadFlac (fun _ => .fail (some [1]) false) 3 { tmp := none, final := none }).1 =
      .err 1 false ∧
    (downloadFlac (fun _ => .fail (some [1]) false) 3
        { tmp := none, final := none }).2.1.final = none ∧
    (downloadFlac (fun _ => .fail (some [1]) false) 3
        { tmp := none, final := none }).2.1.tmp = some [1] := by
  decide

/-- C2 (amended): starting with nothing at the destination, a direct
download whose attempts all fail transiently (retries exhausted)
leaves no file at the destination and no temporary file; a successful
one leaves exactly the fully-written renamed file and no temporary
file. (A non-transient error still leaves nothing at the destination
but may leave the temporary file behind.) -/
theorem downloadFlac_atomic_amended (outcome : Nat → Attempt) (maxRetries : Nat) (fs : FS)
    (hfin : fs.final = none) (hmax : 1 ≤ maxRetries) :
    ((∀ k, 1 ≤ k → k ≤ maxRetries → (outcome k).isTransientFail = true) →
      ∃ sl, downloadFlac outcome maxRetries fs =
        (.err maxRetries true, { tmp := none, final := none }, sl)) ∧
    (∀ n, (downloadFlac outcome maxRetries fs).1 = .ok n →
      ∃ c : List Nat, c.length = n ∧
        (downloadFlac outcome maxRetries fs).2.1 = { tmp := none, final := some c }) := by
  constructor
  · intro hall
    obtain ⟨sl, hsl⟩ := downloadFlacGo_all_transient outcome maxRetries 1 maxRetries fs []
      hall hmax (by omega)
    refine ⟨sl, ?_⟩
    rw [downloadFlac, hsl, hfin]
  · intro n h
    exact downloadFlacGo_ok outcome maxRetries 1 maxRetries fs [] n h

theorem downloadFlac_atomic_amended_witness :
    ∃ sl, downloadFlac (fun _ => Attempt.fail none true) 3 { tmp := none, final := none } =
      (.err 3 true, { tmp := none, final := none }, sl) :=
  (downloadFlac_atomic_amended (fun _ => Attempt.fail none true) 3
      { tmp := none, final := none } rfl (by norm_num)).1 (fun _ _ _ => rfl)

/-! ## C3: the segmented download -/

theorem downloadDashGo_spec (resp : String → Option (List Nat)) :
    ∀ (urls : List String) (acc : List Nat) (total : Nat) (fs : FS) (fetched : List String),
      (downloadDashGo resp urls acc total fs fetched).2.1.tmp = none ∧
      (∃ m, m ≤ urls.length ∧
        (downloadDashGo resp urls acc total fs fetched).2.2 = fetched ++ urls.take m) ∧
      (((downloadDashGo resp urls acc total fs fetched).1 =
            .ok (total + (urls.map (fun u => ((resp u).getD []).length)).sum) ∧
          (downloadDashGo resp urls acc total fs fetched).2.2 = fetched ++ urls ∧
          (downloadDashGo resp urls acc total fs fetched).2.1.final =
            some (acc ++ (urls.map (fun u => (resp u).getD [])).join) ∧
          ∀ u ∈ urls, (resp u).isSome = true) ∨
        ((downloadDashGo resp urls acc total fs fetched).1 = .err ∧
          (downloadDashGo resp urls acc total fs fetched).2.1.final = fs.final ∧
          ∃ u ∈ urls, resp u = none)) := by
  intro urls
  induction urls with
  | nil =>
    intro acc total fs fetched
    refine ⟨rfl, ⟨0, by simp, by simp [downloadDashGo]⟩,
      Or.inl ⟨by simp [downloadDashGo], by simp [downloadDashGo],
        by simp [downloadDashGo], by simp⟩⟩
  | cons u rest ih =>
    intro acc total fs fetched
    cases e : resp u with
    | some chunk =>
      have hstep : downloadDashGo resp (u :: rest) acc total fs fetched =
          downloadDashGo resp rest (acc ++ chunk) (total + chunk.length) fs
            (fetched ++ [u]) := by
        simp only [downloadDashGo, e]
      obtain ⟨htmp, ⟨m, hm, hfet⟩, hres⟩ :=
        ih (acc ++ chunk) (total + chunk.length) fs (fetched ++ [u])
      refine ⟨by rw [hstep]; exact htmp, ⟨m + 1, by simpa using hm, ?_⟩, ?_⟩
      · rw [hstep, hfet]
        simp [List.take]
      · rcases hres with ⟨h1, h2, h3, h4⟩ | ⟨h1, h2, h3⟩
        · left
          refine ⟨?_, ?_, ?_, ?_⟩
          · rw [hstep, h1]
            simp [e]
            omega
          · rw [hstep, h2]
            simp
          · rw [hstep, h3]
            simp [e]
          · intro v hv
            rcases List.mem_cons.mp hv with rfl | hv2
            · simp [e]
            · exact h4 v hv2
        · right
          refine ⟨by rw [hstep]; exact h1, by rw [hstep]; exact h2, ?_⟩
          obtain ⟨v, hv, hvn⟩ := h3
          exact ⟨v, List.mem_cons_of_mem u hv, hvn⟩
    | none =>
      have hstep : downloadDashGo resp (u :: rest) acc total fs fetched =
          (.err, { fs with tmp := none }, fetched ++ [u]) := by
        simp only [downloadDashGo, e]
      refine ⟨by rw [hstep], ⟨1, by simp, by rw [hstep]; simp [List.take]⟩, ?_⟩
      right
      exact ⟨by rw [hstep], by rw [hstep], u, List.mem_cons_self u rest, e⟩

/-- C3: the segmented download fetches the initialization URL first and
then each media segment strictly in the listed order (the fetched list
is always a prefix of the URL list, taken in order — no URL is ever
retried); on success every URL was fetched exactly once and their
concatenation, in order, is renamed onto the destination; on any
single-segment failure the temporary file is removed, the failure is
surfaced, and (starting from no file at the destination) no file is
left there — so the destination never holds a strictly partial
concatenation. -/
theorem downloadDash_sequential_atomic (resp : String → Option (List Nat))
    (initUrl : String) (segs : List String) (fs : FS) (hfin : fs.final = none) :
    (downloadDash resp initUrl segs fs).2.1.tmp = none ∧
    (∃ m, m ≤ (initUrl :: segs).length ∧
      (downloadDash resp initUrl segs fs).2.2 = (initUrl :: segs).take m) ∧
    (((downloadDash resp initUrl segs fs).1 =
          .ok (((initUrl :: segs).map (fun u => ((resp u).getD []).length)).sum) ∧
        (downloadDash resp initUrl segs fs).2.2 = initUrl :: segs ∧
        (downloadDash resp initUrl segs fs).2.1.final =
          some (((initUrl :: segs).map (fun u => (resp u).getD [])).join) ∧
        ∀ u ∈ initUrl :: segs, (resp u).isSome = true) ∨
      ((downloadDash resp initUrl segs fs).1 = .err ∧
        (downloadDash resp initUrl segs fs).2.1.final = none ∧
        ∃ u ∈ initUrl :: segs, resp u = none)) := by
  obtain ⟨htmp, ⟨m, hm, hfet⟩, hres⟩ := downloadDashGo_spec resp (initUrl :: segs) [] 0 fs []
  refine ⟨htmp, ⟨m, hm, by simpa using hfet⟩, ?_⟩
  rcases hres with ⟨h1, h2, h3, h4⟩ | ⟨h1, h2, h3⟩
  · left
    exact ⟨by simpa using h1, by simpa using h2, by simpa using h3, h4⟩
  · right
    refine ⟨h1, ?_, h3⟩
    show (downloadDashGo resp (initUrl :: segs) [] 0 fs []).2.1.final = none
    rw [h2, hfin]

theorem downloadDash_sequential_atomic_witness :
    ({ tmp := none, final := none } : FS).final = none ∧
    (downloadDash (fun u => if u = "s2" then none else some [7]) "init" ["s1", "s2", "s3"]
        { tmp := none, final := none }).2.1.tmp = none := by
  constructor
  · rfl
  · exact (downloadDash_sequential_atomic (fun u => if u = "s2" then none else some [7])
      "init" ["s1", "s2", "s3"] { tmp := none, final := none } rfl).1

/-! ## C9 and C10: the bulk album loop -/

theorem albumFold_spec (attempt : Track → TrackOutcome) :
    ∀ (l : List Track) (d : Nat) (f : List (String × String)) (a : List Track),
      l.foldl
        (fun (acc : Nat × List (String × String) × List Track) t =>
          match attempt t with
          | .ok => (acc.1 + 1, acc.2.1, acc.2.2 ++ [t])
          | .err m => (acc.1, acc.2.1 ++ [(t.title, m)], acc.2.2 ++ [t]))
        (d, f, a) =
      (d + (l.filter (fun t => (attempt t).isOk)).length,
        f ++ l.filterMap (failEntry attempt), a ++ l) := by
  intro l
  induction l with
  | nil =>
    intro d f a
    simp
  | cons t rest ih =>
    intro d f a
    cases e : attempt t with
    | ok =>
      simp only [List.foldl_cons, e]
      rw [ih]
      simp only [Prod.mk.injEq]
      refine ⟨?_, ?_, ?_⟩
      · simp [List.filter_cons, e, TrackOutcome.isOk]
        omega
      · simp [List.filterMap_cons, failEntry, e]
      · simp
    | err m =>
      simp only [List.foldl_cons, e]
      rw [ih]
      simp only [Prod.mk.injEq]
      refine ⟨?_, ?_, ?_⟩
      · simp [List.filter_cons, e, TrackOutcome.isOk]
      · simp [List.filterMap_cons, failEntry, e]
      · simp

/-- C9: in a bulk album download, every missing track is attempted —
a failing track contributes exactly one `(title, message)` entry to
the outcome's failed list and does not stop the loop, which attempts
every later track; the call returns the structured outcome (with the
downloaded count of completed tracks) instead of raising. -/
theorem downloadAlbum_per_track_isolation (tracks : List Track)
    (existsOnDisk : Track → Bool) (attempt : Track → TrackOutcome) :
    (downloadAlbum tracks existsOnDisk attempt).attempted =
        tracks.filter (fun t => !existsOnDisk t) ∧
    (downloadAlbum tracks existsOnDisk attempt).failed =
        (tracks.filter (fun t => !existsOnDisk t)).filterMap (failEntry attempt) ∧
    (downloadAlbum tracks existsOnDisk attempt).downloaded =
        ((tracks.filter (fun t => !existsOnDisk t)).filter
          (fun t => (attempt t).isOk)).length := by
  have h := albumFold_spec attempt (tracks.filter (fun t => !existsOnDisk t)) 0 [] []
  refine ⟨?_, ?_, ?_⟩ <;>
    · simp only [downloadAlbum, h]
      simp

theorem insertKey_fold_length (ids : List String) :
    ∀ ks : List String, ids.Nodup → (∀ i ∈ ids, i ∉ ks) →
      (ids.foldl insertKey ks).length = ks.length + ids.length := by
  induction ids with
  | nil =>
    intro ks h1 h2
    simp
  | cons i rest ih =>
    intro ks h1 h2
    have hik : i ∉ ks := h2 i (List.mem_cons_self i rest)
    have hins : insertKey ks i = ks ++ [i] := by simp [insertKey, hik]
    simp only [List.foldl_cons, hins]
    rw [ih (ks ++ [i]) (List.nodup_cons.mp h1).2 ?_]
    · simp
      omega
    · intro j hj hmem
      rcases List.mem_append.mp hmem with hj1 | hj2
      · exact h2 j (List.mem_cons_of_mem i hj) hj1
      · have hji : j = i := by simpa using hj2
        exact (List.nodup_cons.mp h1).1 (hji ▸ hj)

theorem filter_filterMap_length (attempt : Track → TrackOutcome) (l : List Track) :
    (l.filter (fun t => (attempt t).isOk)).length +
      (l.filterMap (failEntry attempt)).length = l.length := by
  induction l with
  | nil => rfl
  | cons t rest ih =>
    cases e : attempt t with
    | ok =>
      have h1 : (fun t => (attempt t).isOk) t = true := by simp [e, TrackOutcome.isOk]
      rw [List.filter_cons, if_pos h1, List.filterMap_cons,
        show failEntry attempt t = none from by simp [failEntry, e]]
      simp only [List.length_cons]
      omega
    | err m =>
      have h1 : (fun t => (attempt t).isOk) t = false := by simp [e, TrackOutcome.isOk]
      rw [List.filter_cons, List.filterMap_cons,
        show failEntry attempt t = some (t.title, m) from by simp [failEntry, e]]
      rw [if_neg (by simp [h1])]
      simp only [List.length_cons]
      omega

/-- C10 counterexample: an album of two tracks that share a track id
(both already on disk) — the skipped count comes from the id-keyed
dict and collapses to 1, so downloaded + skipped + failed = 1 while
the album has 2 tracks. -/
theorem downloadAlbum_total_counterexample :
    ¬ ((downloadAlbum [{ id := "7", title := "A" }, { id := "7", title := "B" }]
          (fun _ => true) (fun _ => .ok)).downloaded +
        (downloadAlbum [{ id := "7", title := "A" }, { id := "7", title := "B" }]
          (fun _ => true) (fun _ => .ok)).skipped +
        (downloadAlbum [{ id := "7", title := "A" }, { id := "7", title := "B" }]
          (fun _ => true) (fun _ => .ok)).failed.length =
      (downloadAlbum [{ id := "7", title := "A" }, { id := "7", title := "B" }]
          (fun _ => true) (fun _ => .ok)).total) := by
  decide

/-- C10 (amended): when the ids of the tracks found on disk are
pairwise distinct (in particular whenever the album's track ids are
distinct), every track is accounted for exactly once:
downloaded + skipped + failed = total. -/
theorem downloadAlbum_total_amended (tracks : List Track) (existsOnDisk : Track → Bool)
    (attempt : Track → TrackOutcome)
    (h : ((tracks.filter existsOnDisk).map Track.id).Nodup) :
    (downloadAlbum tracks existsOnDisk attempt).downloaded +
      (downloadAlbum tracks existsOnDisk attempt).skipped +
      (downloadAlbum tracks existsOnDisk attempt).failed.length =
    (downloadAlbum tracks existsOnDisk attempt).total := by
  obtain ⟨hatt, hfail, hdl⟩ := downloadAlbum_per_track_isolation tracks existsOnDisk attempt
  have hskip : (downloadAlbum tracks existsOnDisk attempt).skipped =
      (tracks.filter existsOnDisk).length := by
    simp only [downloadAlbum]
    rw [insertKey_fold_length _ [] h (by simp)]
    simp
  have htot : (downloadAlbum tracks existsOnDisk attempt).total = tracks.length := rfl
  rw [hdl, hskip, hfail, htot]
  have hc := filter_filterMap_length attempt (tracks.filter (fun t => !existsOnDisk t))
  have hsplit := length_filter_split existsOnDisk tracks
  omega

theorem downloadAlbum_total_amended_witness :
    (downloadAlbum [{ id := "1", title := "A" }, { id := "2", title := "B" }]
        (fun t => t.id == "1") (fun _ => .ok)).downloaded +
      (downloadAlbum [{ id := "1", title := "A" }, { id := "2", title := "B" }]
        (fun t => t.id == "1") (fun _ => .ok)).skipped +
      (downloadAlbum [{ id := "1", title := "A" }, { id := "2", title := "B" }]
        (fun t => t.id == "1") (fun _ => .ok)).failed.length =
    (downloadAlbum [{ id := "1", title := "A" }, { id := "2", title := "B" }]
        (fun t => t.id == "1") (fun _ => .ok)).total :=
  downloadAlbum_total_amended _ _ _ (by decide)

/-! ## C7: the premium-quality probe -/

theorem hiresTryInstance_isSome (parse : String → Option MpdInfo) (r : Option HiresResp) :
    (hiresTryInstance parse r).isSome = specQualifies parse r := by
  cases r with
  | none => rfl
  | some resp =>
    simp only [hiresTryInstance, specQualifies]
    by_cases h1 : resp.status = 200
    case neg =>
      rw [if_pos h1]
      simp [h1]
    rw [if_neg (by simp [h1])]
    by_cases h2 : resp.hasDetail
    case pos => simp [h1, h2]
    rw [if_neg h2]
    by_cases h3 : resp.manifest = ""
    case pos => simp [h1, h2, h3]
    rw [if_neg h3]
    by_cases h4 : (containsSub resp.manifestMimeType "dash"
        || containsSub resp.manifestMimeType "xml") = true
    case neg =>
      have hb : (containsSub resp.manifestMimeType "dash"
          || containsSub resp.manifestMimeType "xml") = false := by
        simpa using h4
      have ha : (!(containsSub resp.manifestMimeType "dash")
          && !(containsSub resp.manifestMimeType "xml")) = true := by
        rw [← Bool.not_or, hb]
        rfl
      rw [if_pos ha, hb]
      simp [h1, h2, h3]
    have ha : (!(containsSub resp.manifestMimeType "dash")
        && !(containsSub resp.manifestMimeType "xml")) = false := by
      rw [← Bool.not_or, h4]
      rfl
    rw [if_neg (by simp [ha]), h4]
    by_cases h5 : resp.assetPresentation = "FULL"
    case neg =>
      rw [if_pos h5]
      simp [h1, h2, h3, h5]
    rw [if_neg (by simp [h5])]
    cases h6 : parse resp.manifest with
    | none => simp [h1, h2, h3, h5, h6]
    | some info =>
      by_cases h7 : info.codec = "flac"
      · simp [h1, h2, h3, h5, h7]
      · simp [h1, h2, h3, h5, h7]

theorem fetchHires_find (parse : String → Option MpdInfo)
    (resp : String → Option HiresResp) :
    ∀ instances : List String,
      (∀ inst, instances.find? (fun i => specQualifies parse (resp i)) = some inst →
        fetchHires parse instances resp = hiresTryInstance parse (resp inst)) ∧
      (instances.find? (fun i => specQualifies parse (resp i)) = none →
        fetchHires parse instances resp = none) := by
  intro instances
  induction instances with
  | nil =>
    refine ⟨?_, fun _ => rfl⟩
    intro inst h
    simp [List.find?] at h
  | cons j rest ih =>
    cases hq : specQualifies parse (resp j) with
    | true =>
      have hsome : (hiresTryInstance parse (resp j)).isSome = true := by
        rw [hiresTryInstance_isSome, hq]
      obtain ⟨r, hr⟩ := Option.isSome_iff_exists.mp hsome
      constructor
      · intro inst h
        rw [List.find?_cons_of_pos rest
          (show (fun i => specQualifies parse (resp i)) j = true from hq)] at h
        cases h
        simp only [fetchHires, hr]
      · intro h
        rw [List.find?_cons_of_pos rest
          (show (fun i => specQualifies parse (resp i)) j = true from hq)] at h
        cases h
    | false =>
      have hnone : hiresTryInstance parse (resp j) = none := by
        have := hiresTryInstance_isSome parse (resp j)
        rw [hq] at this
        exact Option.not_isSome_iff_eq_none.mp (by simp [this])
      constructor
      · intro inst h
        rw [List.find?_cons_of_neg rest
          (show ¬ (fun i => specQualifies parse (resp i)) j = true from by simp [hq])] at h
        rw [show fetchHires parse (j :: rest) resp = fetchHires parse rest resp from by
          simp only [fetchHires, hnone]]
        exact ih.1 inst h
      · intro h
        rw [List.find?_cons_of_neg rest
          (show ¬ (fun i => specQualifies parse (resp i)) j = true from by simp [hq])] at h
        rw [show fetchHires parse (j :: rest) resp = fetchHires parse rest resp from by
          simp only [fetchHires, hnone]]
        exact ih.2 h

/-- C7: resolving HI_RES_LOSSLESS probes the mirrors in pool order;
when some mirror qualifies under the spec's acceptance (full
non-preview access, parseable DASH manifest, codec exactly flac), the
first such mirror's descriptor is returned and the standard LOSSLESS
tier is never consulted; when no mirror qualifies, the resolver falls
back to the standard tier. -/
theorem fetchTrackUrl_hires_first_qualifying (parse : String → Option MpdInfo)
    (instances : List String) (resp : String → Option HiresResp) :
    (∀ inst, instances.find? (fun i => specQualifies parse (resp i)) = some inst →
      ∃ d m, hiresTryInstance parse (resp inst) = some (d, m) ∧
        fetchTrackUrl parse "HI_RES_LOSSLESS" instances resp = .hires d m) ∧
    (instances.find? (fun i => specQualifies parse (resp i)) = none →
      fetchTrackUrl parse "HI_RES_LOSSLESS" instances resp = .losslessTier) := by
  constructor
  · intro inst h
    have hq : specQualifies parse (resp inst) = true := by
      have := List.find?_some h
      simpa using this
    have hsome : (hiresTryInstance parse (resp inst)).isSome = true := by
      rw [hiresTryInstance_isSome, hq]
    obtain ⟨r, hr⟩ := Option.isSome_iff_exists.mp hsome
    obtain ⟨d, m⟩ := r
    refine ⟨d, m, hr, ?_⟩
    have hfh := (fetchHires_find parse resp instances).1 inst h
    rw [fetchTrackUrl, if_pos rfl, hfh, hr]
  · intro h
    have hfh := (fetchHires_find parse resp instances).2 h
    rw [fetchTrackUrl, if_pos rfl, hfh]

theorem fetchTrackUrl_hires_first_qualifying_witness :
    (["good"] : List String).find? (fun i => specQualifies
        (fun _ => some { init_url := "i", segment_urls := ["u1"], codec := "flac" })
        ((fun _ => some { status := 200, hasDetail := false, manifest := "m", manifestMimeType := "application/dash+xml", assetPresentation := "FULL", trackReplayGain := none, trackPeakAmplitude := none, albumReplayGain := none, albumPeakAmplitude := none }) i)) = some "good" ∧
    ∃ d m, hiresTryInstance
        (fun _ => some { init_url := "i", segment_urls := ["u1"], codec := "flac" })
        ((fun _ => some { status := 200, hasDetail := false, manifest := "m", manifestMimeType := "application/dash+xml", assetPresentation := "FULL", trackReplayGain := none, trackPeakAmplitude := none, albumReplayGain := none, albumPeakAmplitude := none }) "good") = some (d, m) ∧
      fetchTrackUrl (fun _ => some { init_url := "i", segment_urls := ["u1"], codec := "flac" })
        "HI_RES_LOSSLESS" ["good"]
        (fun _ => some { status := 200, hasDetail := false, manifest := "m", manifestMimeType := "application/dash+xml", assetPresentation := "FULL", trackReplayGain := none, trackPeakAmplitude := none, albumReplayGain := none, albumPeakAmplitude := none }) =
      FetchOut.hires d m :=
  ⟨by decide,
    (fetchTrackUrl_hires_first_qualifying
      (fun _ => some { init_url := "i", segment_urls := ["u1"], codec := "flac" })
      ["good"]
      (fun _ => some { status := 200, hasDetail := false, manifest := "m", manifestMimeType := "application/dash+xml", assetPresentation := "FULL", trackReplayGain := none, trackPeakAmplitude := none, albumReplayGain := none, albumPeakAmplitude := none })).1
      "good" (by decide)⟩

/-! ## C1: the upload single-flight -/

theorem get_some_lt {α : Type} {l : List α} {i : Nat} {a : α}
    (h : l.get? i = some a) : i < l.length := by
  by_contra hlt
  rw [List.get?_eq_none.mpr (by omega)] at h
  cases h

theorem setPc_get_self (s : SFState) (i : Nat) (p : PC) (h : i < s.pcs.length) :
    (setPc s i p).pcs.get? i = some p :=
  List.get?_set_eq_of_lt p h

theorem setPc_get_other (s : SFState) (i j : Nat) (p : PC) (h : i ≠ j) :
    (setPc s i p).pcs.get? j = s.pcs.get? j :=
  List.get?_set_ne p s.pcs h

theorem setPc_length (s : SFState) (i : Nat) (p : PC) :
    (setPc s i p).pcs.length = s.pcs.length :=
  List.length_set s.pcs i p

theorem execAct_oob (out : Nat → Option String) (s : SFState) (a : Act)
    (hp : s.pcs.get? a.i = none) : execAct out s a = s := by
  unfold execAct
  rw [hp]

theorem execAct_done_noop (out : Nat → Option String) (s : SFState) (a : Act) (r : Option String)
    (hp : s.pcs.get? a.i = some (PC.done r)) : execAct out s a = s := by
  unfold execAct
  rw [hp]

theorem execAct_timedOut_noop (out : Nat → Option String) (s : SFState) (a : Act)
    (hp : s.pcs.get? a.i = some PC.timedOut) : execAct out s a = s := by
  unfold execAct
  rw [hp]

theorem execAct_start_cached (out : Nat → Option String) (s : SFState) (a : Act) (v : String)
    (hp : s.pcs.get? a.i = some PC.start) (hc : s.cache = some v) :
    execAct out s a = setPc s a.i (PC.done (some v)) := by
  unfold execAct
  rw [hp, hc]

theorem execAct_start_wait (out : Nat → Option String) (s : SFState) (a : Act) (g : Nat)
    (hp : s.pcs.get? a.i = some PC.start) (hc : s.cache = none)
    (hpend : s.pending = some g) :
    execAct out s a = setPc s a.i (PC.waiting g) := by
  unfold execAct
  rw [hp, hc, hpend]

theorem execAct_start_compute (out : Nat → Option String) (s : SFState) (a : Act)
    (hp : s.pcs.get? a.i = some PC.start) (hc : s.cache = none)
    (hpend : s.pending = none) :
    execAct out s a =
      { setPc s a.i (PC.computing s.nextGen) with
          pending := some s.nextGen, nextGen := s.nextGen + 1 } := by
  unfold execAct
  rw [hp, hc, hpend]

theorem execAct_waiting_tmo (out : Nat → Option String) (s : SFState) (a : Act) (g : Nat)
    (hp : s.pcs.get? a.i = some (PC.waiting g)) (ht : a.tmo = true) :
    execAct out s a = setPc s a.i PC.timedOut := by
  unfold execAct
  rw [hp]
  simp [ht]

theorem execAct_waiting_wake (out : Nat → Option String) (s : SFState) (a : Act) (g : Nat)
    (hp : s.pcs.get? a.i = some (PC.waiting g)) (ht : a.tmo = false)
    (hg : g < s.settles) :
    execAct out s a = setPc s a.i (PC.done s.cache) := by
  unfold execAct
  rw [hp]
  simp [ht, hg]

theorem execAct_waiting_stuck (out : Nat → Option String) (s : SFState) (a : Act) (g : Nat)
    (hp : s.pcs.get? a.i = some (PC.waiting g)) (ht : a.tmo = false)
    (hg : ¬ g < s.settles) :
    execAct out s a = s := by
  unfold execAct
  rw [hp]
  simp [ht, hg]

theorem execAct_computing (out : Nat → Option String) (s : SFState) (a : Act) (g : Nat)
    (hp : s.pcs.get? a.i = some (PC.computing g)) :
    execAct out s a =
      { setPc s a.i (PC.fetched g (out a.i)) with fetches := s.fetches + 1 } := by
  unfold execAct
  rw [hp]

theorem execAct_fetched_some (out : Nat → Option String) (s : SFState) (a : Act) (g : Nat)
    (fid : String) (hp : s.pcs.get? a.i = some (PC.fetched g (some fid))) :
    execAct out s a =
      { setPc s a.i (PC.finishing g fid) with cache := some fid } := by
  unfold execAct
  rw [hp]

theorem execAct_fetched_none (out : Nat → Option String) (s : SFState) (a : Act) (g : Nat)
    (hp : s.pcs.get? a.i = some (PC.fetched g none)) :
    execAct out s a =
      { setPc s a.i (PC.done none) with pending := none, settles := s.settles + 1 } := by
  unfold execAct
  rw [hp]

theorem execAct_finishing (out : Nat → Option String) (s : SFState) (a : Act) (g : Nat)
    (fid : String) (hp : s.pcs.get? a.i = some (PC.finishing g fid)) :
    execAct out s a =
      { setPc s a.i (PC.done (some fid)) with pending := none, settles := s.settles + 1 } := by
  unfold execAct
  rw [hp]

theorem execAct_length (out : Nat → Option String) (s : SFState) (a : Act) :
    (execAct out s a).pcs.length = s.pcs.length := by
  cases hp : s.pcs.get? a.i with
  | none => rw [execAct_oob out s a hp]
  | some pc =>
    cases pc with
    | start =>
      cases hc : s.cache with
      | some v => rw [execAct_start_cached out s a v hp hc, setPc_length]
      | none =>
        cases hpend : s.pending with
        | some g => rw [execAct_start_wait out s a g hp hc hpend, setPc_length]
        | none =>
          rw [execAct_start_compute out s a hp hc hpend]
          exact setPc_length s a.i _
    | waiting g =>
      cases ht : a.tmo with
      | true => rw [execAct_waiting_tmo out s a g hp ht, setPc_length]
      | false =>
        by_cases hg : g < s.settles
        · rw [execAct_waiting_wake out s a g hp ht hg, setPc_length]
        · rw [execAct_waiting_stuck out s a g hp ht hg]
    | computing g =>
      rw [execAct_computing out s a g hp]
      exact setPc_length s a.i _
    | fetched g res =>
      cases res with
      | some fid =>
        rw [execAct_fetched_some out s a g fid hp]
        exact setPc_length s a.i _
      | none =>
        rw [execAct_fetched_none out s a g hp]
        exact setPc_length s a.i _
    | finishing g fid =>
      rw [execAct_finishing out s a g fid hp]
      exact setPc_length s a.i _
    | done r => rw [execAct_done_noop out s a r hp]
    | timedOut => rw [execAct_timedOut_noop out s a hp]

theorem runTrace_length (out : Nat → Option String) :
    ∀ (tr : List Act) (s : SFState), (runTrace out s tr).pcs.length = s.pcs.length := by
  intro tr
  induction tr with
  | nil => intro s; rfl
  | cons a rest ih =>
    intro s
    show (runTrace out (execAct out s a) rest).pcs.length = s.pcs.length
    rw [ih (execAct out s a), execAct_length]

theorem preserve_phaseNone (out : Nat → Option String) (s : SFState) (a : Act)
    (h0 : PhaseNone s) : SFInv (execAct out s a) := by
  obtain ⟨hc, hpend, hng, hst, hf, hpcs⟩ := h0
  cases hp : s.pcs.get? a.i with
  | none =>
    rw [execAct_oob out s a hp]
    exact Or.inl ⟨hc, hpend, hng, hst, hf, hpcs⟩
  | some pc =>
    have hstart := hpcs a.i pc hp
    subst hstart
    rw [execAct_start_compute out s a hp hc hpend, hng]
    right; left
    refine ⟨rfl, rfl, hst, a.i, ?_, Or.inl ⟨?_, hf, hc, ?_⟩⟩
    · show a.i < (s.pcs.set a.i (PC.computing 0)).length
      rw [List.length_set]
      exact get_some_lt hp
    · exact List.get?_set_eq_of_lt _ (get_some_lt hp)
    · intro j p hj hjp
      have h3 : (s.pcs.set a.i (PC.computing 0)).get? j = some p := hjp
      rw [List.get?_set_ne _ s.pcs (Ne.symm hj)] at h3
      exact Or.inl (hpcs j p h3)

theorem bystander1_step (out : Nat → Option String) (s : SFState) (a : Act) (pc : PC)
    (hp : s.pcs.get? a.i = some pc) (hb : Bystander1 pc) (hc : s.cache = none)
    (hpend : s.pending = some 0) (hst : s.settles = 0) :
    execAct out s a = s ∨
    ∃ q, Bystander1 q ∧ execAct out s a = setPc s a.i q := by
  rcases hb with rfl | rfl | rfl
  · right
    exact ⟨PC.waiting 0, Or.inr (Or.inl rfl), execAct_start_wait out s a 0 hp hc hpend⟩
  · cases ht : a.tmo with
    | true =>
      right
      exact ⟨PC.timedOut, Or.inr (Or.inr rfl), execAct_waiting_tmo out s a 0 hp ht⟩
    | false =>
      left
      exact execAct_waiting_stuck out s a 0 hp ht (by omega)
  · left
    exact execAct_timedOut_noop out s a hp

theorem bystander2_step (out : Nat → Option String) (s : SFState) (a : Act) (pc : PC)
    (v : String) (hp : s.pcs.get? a.i = some pc) (hb : Bystander2 v pc)
    (hc : s.cache = some v) (hst : s.settles = 0) :
    execAct out s a = s ∨
    ∃ q, Bystander2 v q ∧ execAct out s a = setPc s a.i q := by
  rcases hb with rfl | rfl | rfl | rfl
  · right
    exact ⟨PC.done (some v), Or.inr (Or.inr (Or.inr rfl)),
      execAct_start_cached out s a v hp hc⟩
  · cases ht : a.tmo with
    | true =>
      right
      exact ⟨PC.timedOut, Or.inr (Or.inr (Or.inl rfl)), execAct_waiting_tmo out s a 0 hp ht⟩
    | false =>
      left
      exact execAct_waiting_stuck out s a 0 hp ht (by omega)
  · left
    exact execAct_timedOut_noop out s a hp
  · left
    exact execAct_done_noop out s a (some v) hp

theorem preserve_phaseRun (out : Nat → Option String) (s : SFState) (a : Act)
    (h1 : PhaseRun s) : SFInv (execAct out s a) := by
  obtain ⟨hpend, hng, hst, c, hclen, hsub⟩ := h1
  cases hp : s.pcs.get? a.i with
  | none =>
    rw [execAct_oob out s a hp]
    exact Or.inr (Or.inl ⟨hpend, hng, hst, c, hclen, hsub⟩)
  | some pc =>
    by_cases hi : a.i = c
    · subst hi
      rcases hsub with ⟨hcpc, hf, hc, hby⟩ | ⟨r, hcpc, hf, hc, hby⟩ | ⟨v, hcpc, hf, hc, hby⟩
      · rw [execAct_computing out s a 0 hcpc]
        right; left
        refine ⟨hpend, hng, hst, a.i, ?_, Or.inr (Or.inl ⟨out a.i, ?_, ?_, hc, ?_⟩)⟩
        · show a.i < (s.pcs.set a.i (PC.fetched 0 (out a.i))).length
          rw [List.length_set]
          exact get_some_lt hcpc
        · exact List.get?_set_eq_of_lt _ (get_some_lt hcpc)
        · show s.fetches + 1 = 1
          rw [hf]
        · intro j p hj hjp
          have h3 : (s.pcs.set a.i (PC.fetched 0 (out a.i))).get? j = some p := hjp
          rw [List.get?_set_ne _ s.pcs (Ne.symm hj)] at h3
          exact hby j p hj h3
      · cases r with
        | some fid =>
          rw [execAct_fetched_some out s a 0 fid hcpc]
          right; left
          refine ⟨hpend, hng, hst, a.i, ?_, Or.inr (Or.inr ⟨fid, ?_, hf, rfl, ?_⟩)⟩
          · show a.i < (s.pcs.set a.i (PC.finishing 0 fid)).length
            rw [List.length_set]
            exact get_some_lt hcpc
          · exact List.get?_set_eq_of_lt _ (get_some_lt hcpc)
          · intro j p hj hjp
            have h3 : (s.pcs.set a.i (PC.finishing 0 fid)).get? j = some p := hjp
            rw [List.get?_set_ne _ s.pcs (Ne.symm hj)] at h3
            rcases hby j p hj h3 with h | h | h
            · exact Or.inl h
            · exact Or.inr (Or.inl h)
            · exact Or.inr (Or.inr (Or.inl h))
        | none =>
          rw [execAct_fetched_none out s a 0 hcpc]
          right; right
          refine ⟨rfl, hng, ?_, hf, ?_⟩
          · show s.settles + 1 = 1
            rw [hst]
          · intro j p hjp
            by_cases hji : j = a.i
            · subst hji
              have h3 : (s.pcs.set a.i (PC.done none)).get? a.i = some p := hjp
              rw [List.get?_set_eq_of_lt _ (get_some_lt hcpc)] at h3
              right; right; right
              show p = PC.done s.cache
              rw [hc, ← Option.some.inj h3]
            · have h3 : (s.pcs.set a.i (PC.done none)).get? j = some p := hjp
              rw [List.get?_set_ne _ s.pcs (fun he => hji he.symm)] at h3
              rcases hby j p hji h3 with h | h | h
              · exact Or.inl h
              · exact Or.inr (Or.inl h)
              · exact Or.inr (Or.inr (Or.inl h))
      · rw [execAct_finishing out s a 0 v hcpc]
        right; right
        refine ⟨rfl, hng, ?_, hf, ?_⟩
        · show s.settles + 1 = 1
          rw [hst]
        · intro j p hjp
          by_cases hji : j = a.i
          · subst hji
            have h3 : (s.pcs.set a.i (PC.done (some v))).get? a.i = some p := hjp
            rw [List.get?_set_eq_of_lt _ (get_some_lt hcpc)] at h3
            right; right; right
            show p = PC.done s.cache
            rw [hc, ← Option.some.inj h3]
          · have h3 : (s.pcs.set a.i (PC.done (some v))).get? j = some p := hjp
            rw [List.get?_set_ne _ s.pcs (fun he => hji he.symm)] at h3
            rcases hby j p hji h3 with h | h | h | h
            · exact Or.inl h
            · exact Or.inr (Or.inl h)
            · exact Or.inr (Or.inr (Or.inl h))
            · right; right; right
              show p = PC.done s.cache
              rw [hc]
              exact h
    · rcases hsub with ⟨hcpc, hf, hc, hby⟩ | ⟨r, hcpc, hf, hc, hby⟩ | ⟨v, hcpc, hf, hc, hby⟩
      · have hbpc : Bystander1 pc := hby a.i pc hi hp
        rcases bystander1_step out s a pc hp hbpc hc hpend hst with heq | ⟨q, hq, heq⟩
        · rw [heq]
          exact Or.inr (Or.inl ⟨hpend, hng, hst, c, hclen, Or.inl ⟨hcpc, hf, hc, hby⟩⟩)
        · rw [heq]
          right; left
          refine ⟨hpend, hng, hst, c, ?_, Or.inl ⟨?_, hf, hc, ?_⟩⟩
          · rw [setPc_length]
            exact hclen
          · rw [setPc_get_other s a.i c q hi]
            exact hcpc
          · intro j p hj hjp
            by_cases hji : j = a.i
            · subst hji
              rw [setPc_get_self s a.i q (get_some_lt hp)] at hjp
              rw [← Option.some.inj hjp]
              exact hq
            · rw [setPc_get_other s a.i j q (fun he => hji he.symm)] at hjp
              exact hby j p hj hjp
      · have hbpc : Bystander1 pc := hby a.i pc hi hp
        rcases bystander1_step out s a pc hp hbpc hc hpend hst with heq | ⟨q, hq, heq⟩
        · rw [heq]
          exact Or.inr (Or.inl ⟨hpend, hng, hst, c, hclen,
            Or.inr (Or.inl ⟨r, hcpc, hf, hc, hby⟩)⟩)
        · rw [heq]
          right; left
          refine ⟨hpend, hng, hst, c, ?_, Or.inr (Or.inl ⟨r, ?_, hf, hc, ?_⟩)⟩
          · rw [setPc_length]
            exact hclen
          · rw [setPc_get_other s a.i c q hi]
            exact hcpc
          · intro j p hj hjp
            by_cases hji : j = a.i
            · subst hji
              rw [setPc_get_self s a.i q (get_some_lt hp)] at hjp
              rw [← Option.some.inj hjp]
              exact hq
            · rw [setPc_get_other s a.i j q (fun he => hji he.symm)] at hjp
              exact hby j p hj hjp
      · have hbpc : Bystander2 v pc := hby a.i pc hi hp
        rcases bystander2_step out s a pc v hp hbpc hc hst with heq | ⟨q, hq, heq⟩
        · rw [heq]
          exact Or.inr (Or.inl ⟨hpend, hng, hst, c, hclen,
            Or.inr (Or.inr ⟨v, hcpc, hf, hc, hby⟩)⟩)
        · rw [heq]
          right; left
          refine ⟨hpend, hng, hst, c, ?_, Or.inr (Or.inr ⟨v, ?_, hf, hc, ?_⟩)⟩
          · rw [setPc_length]
            exact hclen
          · rw [setPc_get_other s a.i c q hi]
            exact hcpc
          · intro j p hj hjp
            by_cases hji : j = a.i
            · subst hji
              rw [setPc_get_self s a.i q (get_some_lt hp)] at hjp
              rw [← Option.some.inj hjp]
              exact hq
            · rw [setPc_get_other s a.i j q (fun he => hji he.symm)] at hjp
              exact hby j p hj hjp

theorem preserve_phaseDone (out : Nat → Option String) (s : SFState) (a : Act)
    (h2 : PhaseDone s) (hok : entryOk s a = true) : SFInv (execAct out s a) := by
  obtain ⟨hpend, hng, hst, hf, hpcs⟩ := h2
  cases hp : s.pcs.get? a.i with
  | none =>
    rw [execAct_oob out s a hp]
    exact Or.inr (Or.inr ⟨hpend, hng, hst, hf, hpcs⟩)
  | some pc =>
    rcases hpcs a.i pc hp with rfl | rfl | rfl | rfl
    · exfalso
      unfold entryOk at hok
      rw [hp, hst] at hok
      simp at hok
    · cases ht : a.tmo with
      | true =>
        rw [execAct_waiting_tmo out s a 0 hp ht]
        right; right
        refine ⟨hpend, hng, hst, hf, ?_⟩
        intro j p hjp
        by_cases hji : j = a.i
        · subst hji
          rw [setPc_get_self s a.i PC.timedOut (get_some_lt hp)] at hjp
          rw [← Option.some.inj hjp]
          exact Or.inr (Or.inr (Or.inl rfl))
        · rw [setPc_get_other s a.i j PC.timedOut (fun he => hji he.symm)] at hjp
          rcases hpcs j p hjp with h | h | h | h
          · exact Or.inl h
          · exact Or.inr (Or.inl h)
          · exact Or.inr (Or.inr (Or.inl h))
          · exact Or.inr (Or.inr (Or.inr h))
      | false =>
        have hg : (0 : Nat) < s.settles := by omega
        rw [execAct_waiting_wake out s a 0 hp ht hg]
        right; right
        refine ⟨hpend, hng, hst, hf, ?_⟩
        intro j p hjp
        by_cases hji : j = a.i
        · subst hji
          rw [setPc_get_self s a.i (PC.done s.cache) (get_some_lt hp)] at hjp
          rw [← Option.some.inj hjp]
          exact Or.inr (Or.inr (Or.inr rfl))
        · rw [setPc_get_other s a.i j (PC.done s.cache) (fun he => hji he.symm)] at hjp
          rcases hpcs j p hjp with h | h | h | h
          · exact Or.inl h
          · exact Or.inr (Or.inl h)
          · exact Or.inr (Or.inr (Or.inl h))
          · exact Or.inr (Or.inr (Or.inr h))
    · rw [execAct_timedOut_noop out s a hp]
      exact Or.inr (Or.inr ⟨hpend, hng, hst, hf, hpcs⟩)
    · rw [execAct_done_noop out s a s.cache hp]
      exact Or.inr (Or.inr ⟨hpend, hng, hst, hf, hpcs⟩)

theorem execAct_preserves (out : Nat → Option String) (s : SFState) (a : Act)
    (hinv : SFInv s) (hok : entryOk s a = true) : SFInv (execAct out s a) := by
  rcases hinv with h0 | h1 | h2
  · exact preserve_phaseNone out s a h0
  · exact preserve_phaseRun out s a h1
  · exact preserve_phaseDone out s a h2 hok

theorem sf_invariant_run (out : Nat → Option String) :
    ∀ (tr : List Act) (s : SFState), SFInv s → stepsOk out s tr = true →
      SFInv (runTrace out s tr) := by
  intro tr
  induction tr with
  | nil =>
    intro s h _
    exact h
  | cons a rest ih =>
    intro s h hok
    have h1 : entryOk s a = true ∧ stepsOk out (execAct out s a) rest = true := by
      simpa [stepsOk] using hok
    exact ih (execAct out s a) (execAct_preserves out s a h h1.1) h1.2

/-- C1: for N concurrent callers of the upload single-flight for one
song id, starting from no cached result and no pending upload, under
any cooperative schedule in which every caller enters while the flight
has not yet settled (the callers are concurrent), and in which every
caller eventually returns or times out: exactly one physical
fetch/upload is executed, and every caller that did not time out
observed the same settled result — the cached file id, or the same
absence of one when the computer failed. -/
theorem ensureCached_single_flight (out : Nat → Option String) (n : Nat) (tr : List Act)
    (hn : 0 < n)
    (hok : stepsOk out (initState n) tr = true)
    (hfin : allFinished (runTrace out (initState n) tr) = true) :
    (runTrace out (initState n) tr).fetches = 1 ∧
    ∃ r : Option String, ∀ i res,
      (runTrace out (initState n) tr).pcs.get? i = some (PC.done res) → res = r := by
  have hinv0 : SFInv (initState n) := by
    left
    refine ⟨rfl, rfl, rfl, rfl, rfl, ?_⟩
    intro j p hj
    exact List.eq_of_mem_replicate (List.get?_mem hj)
  have hinv := sf_invariant_run out tr (initState n) hinv0 hok
  have hlen : (runTrace out (initState n) tr).pcs.length = n := by
    rw [runTrace_length]
    exact List.length_replicate n PC.start
  have hfin2 : ∀ j p, (runTrace out (initState n) tr).pcs.get? j = some p →
      isFinished p = true := by
    intro j p hj
    exact List.all_eq_true.mp hfin p (List.get?_mem hj)
  rcases hinv with h0 | h1 | h2
  · exfalso
    obtain ⟨_, _, _, _, _, hpcs⟩ := h0
    have hlt : 0 < (runTrace out (initState n) tr).pcs.length := by
      rw [hlen]
      exact hn
    have hp : (runTrace out (initState n) tr).pcs.get? 0 =
        some ((runTrace out (initState n) tr).pcs.get ⟨0, hlt⟩) :=
      List.get?_eq_get hlt
    have hps := hpcs 0 _ hp
    have := hfin2 0 _ hp
    rw [hps] at this
    simp [isFinished] at this
  · exfalso
    obtain ⟨_, _, _, c, hclen, hsub⟩ := h1
    rcases hsub with ⟨hcpc, _⟩ | ⟨r, hcpc, _⟩ | ⟨v, hcpc, _⟩
    · have := hfin2 c _ hcpc
      simp [isFinished] at this
    · have := hfin2 c _ hcpc
      simp [isFinished] at this
    · have := hfin2 c _ hcpc
      simp [isFinished] at this
  · obtain ⟨_, _, _, hf, hpcs⟩ := h2
    refine ⟨hf, (runTrace out (initState n) tr).cache, ?_⟩
    intro i res hi
    rcases hpcs i _ hi with h | h | h | h
    · exact PC.noConfusion h
    · exact PC.noConfusion h
    · exact PC.noConfusion h
    · injection h

theorem ensureCached_single_flight_witness :
    (0 < 2 ∧
      stepsOk (fun _ => some "fid") (initState 2)
        [⟨0, false⟩, ⟨1, false⟩, ⟨0, false⟩, ⟨0, false⟩, ⟨0, false⟩, ⟨1, false⟩] = true ∧
      allFinished (runTrace (fun _ => some "fid") (initState 2)
        [⟨0, false⟩, ⟨1, false⟩, ⟨0, false⟩, ⟨0, false⟩, ⟨0, false⟩, ⟨1, false⟩]) = true) ∧
    ((runTrace (fun _ => some "fid") (initState 2)
        [⟨0, false⟩, ⟨1, false⟩, ⟨0, false⟩, ⟨0, false⟩, ⟨0, false⟩, ⟨1, false⟩]).fetches = 1 ∧
      ∃ r : Option String, ∀ i res,
        (runTrace (fun _ => some "fid") (initState 2)
          [⟨0, false⟩, ⟨1, false⟩, ⟨0, false⟩, ⟨0, false⟩, ⟨0, false⟩, ⟨1, false⟩]).pcs.get? i =
            some (PC.done res) → res = r) :=
  ⟨⟨by decide, by decide, by decide⟩,
    ensureCached_single_flight (fun _ => some "fid") 2
      [⟨0, false⟩, ⟨1, false⟩, ⟨0, false⟩, ⟨0, false⟩, ⟨0, false⟩, ⟨1, false⟩]
      (by decide) (by decide) (by decide)⟩
